import Mathlib

/- Verification of the triSYCL host-side core: coordinate arithmetic
   (`RangeImpl`/`IdImpl` and their elementwise operators), the ND-range
   descriptor, the per-iteration context objects (`item`, `nd_item`), the
   buffer/accessor storage model (`BufferImpl`, `AccessorImpl`) and the
   recursive flat enumerator (`ParallelForIterate`).

   Coordinates are vectors of signed machine integers (`std::intptr_t` in the
   implementation header, `std::ptrdiff_t` in `id<>`); they are embedded as
   `List Int`.  C++ integer division truncates toward zero, which is
   `Int.tdiv`.  Stateful buffer storage is embedded as an explicit store, a
   list of allocations, threaded through the buffer constructors and accessor
   reads/writes. -/

namespace TriSycl

/-- Access modes, from `enum access::mode` in `CL/sycl.hpp`
    (`read`, `write`, `atomic`, `read_write`, `discard_read_write`). -/
inductive Mode where
  | read
  | write
  | atomic
  | read_write
  | discard_read_write
deriving DecidableEq

/-- Whether the access mode requests write access; only `read` does not. -/
def Mode.includesWrite : Mode → Bool
  | Mode.read => false
  | _ => true

/-- Access targets, from `enum access::target` in `CL/sycl.hpp`
    (`local` is renamed `local_mem` because `local` is reserved in Lean). -/
inductive Target where
  | global_buffer
  | constant_buffer
  | local_mem
  | image
  | host_buffer
  | host_image
  | image_array
  | cl_buffer
  | cl_image
deriving DecidableEq

/-- The default constructor `RangeImpl() : vector(Dimensions)`: a vector of
    `Dimensions` value-initialized (zero) elements. -/
def rangeDefault (dims : Nat) : List Int := List.replicate dims 0

/-- The copy constructor `RangeImpl(const RangeImpl &init) : vector(init)`. -/
def rangeCopy (r : List Int) : List Int := r

/-- The initializer-list constructor
    `RangeImpl(std::initializer_list<std::intptr_t> l)`; it asserts
    `Dimensions == l.size()`, so a mismatched length is a contract violation,
    embedded as `none`. -/
def rangeInitList (dims : Nat) (l : List Int) : Option (List Int) :=
  if l.length = dims then some l else none

/-- The `std::vector` count constructor inherited by
    `using std::vector<std::intptr_t>::vector;`: `RangeImpl<dims> r(n)` makes
    a vector of `n` value-initialized (zero) elements, regardless of `dims`. -/
def rangeFromCount (dims : Nat) (n : Nat) : List Int := List.replicate n 0

/-- The `std::vector` count-and-value constructor inherited the same way:
    `RangeImpl<dims> r(n, v)` makes a vector of `n` copies of `v`. -/
def rangeFromCountValue (dims : Nat) (n : Nat) (v : Int) : List Int :=
  List.replicate n v

/-- Embeds `operator/(RangeImpl dividend, RangeImpl divisor)`: elementwise division
    with upper rounding, `result[i] = (dividend[i] + divisor[i] - 1)/divisor[i]`
    for `i` in `[0, Dimensions)`, with C++ truncating integer division. -/
def rangeDiv (dims : Nat) (a b : List Int) : List Int :=
  (List.range dims).map (fun i => (a.getD i 0 + b.getD i 0 - 1).tdiv (b.getD i 0))

/-- Embeds `operator*(RangeImpl a, RangeImpl b)`: elementwise multiplication. -/
def rangeMul (dims : Nat) (a b : List Int) : List Int :=
  (List.range dims).map (fun i => a.getD i 0 * b.getD i 0)

/-- Embeds `operator+(RangeImpl a, RangeImpl b)`: elementwise addition. -/
def rangeAdd (dims : Nat) (a b : List Int) : List Int :=
  (List.range dims).map (fun i => a.getD i 0 + b.getD i 0)

/-- Embeds `NDRangeImpl<dims>` (equally `nd_range<dims>` in `CL/sycl.hpp`): a global
    range, a local range and an offset; the template parameter `dims` is kept
    as a field. -/
structure NDRangeImpl where
  dims : Nat
  GlobalRange : List Int
  LocalRange : List Int
  Offset : List Int
deriving DecidableEq

/-- Embeds `NDRangeImpl::get_global_range()`. -/
def NDRangeImpl.get_global_range (nd : NDRangeImpl) : List Int := nd.GlobalRange

/-- Embeds `NDRangeImpl::get_local_range()`. -/
def NDRangeImpl.get_local_range (nd : NDRangeImpl) : List Int := nd.LocalRange

/-- Embeds `NDRangeImpl::get_group_range()`: `GlobalRange/LocalRange` with the
    elementwise upper-rounding division. -/
def NDRangeImpl.get_group_range (nd : NDRangeImpl) : List Int :=
  rangeDiv nd.dims nd.GlobalRange nd.LocalRange

/-- Embeds `NDRangeImpl::get_offset()`. -/
def NDRangeImpl.get_offset (nd : NDRangeImpl) : List Int := nd.Offset

/-- Embeds `item<dims>` from `CL/sycl.hpp`: a global range, a global index and an
    offset. -/
structure item where
  Range : List Int
  GlobalIndex : List Int
  Offset : List Int
deriving DecidableEq

/-- Embeds `item::get_global_id()`: returns `GlobalIndex` unchanged (type `id<dims>`,
    signed components). -/
def item.get_global_id (it : item) : List Int := it.GlobalIndex

/-- Embeds `item::get(int dimension)`: returns `GlobalIndex[dimension]`, but with
    return type `size_t`; the implicit conversion of the signed `ptrdiff_t`
    component to the unsigned `size_t` reduces it modulo `2 ^ w`, where `w` is
    the word width in bits. -/
def item.get (it : item) (w : Nat) (dimension : Nat) : Nat :=
  ((it.GlobalIndex.getD dimension 0) % ((2 : Int) ^ w)).toNat

/-- Embeds `item::get_global_range()`. -/
def item.get_global_range (it : item) : List Int := it.Range

/-- Embeds `item::get_offset()`. -/
def item.get_offset (it : item) : List Int := it.Offset

/-- Embeds `nd_item<dims>` from `CL/sycl.hpp` (`ItemImpl` in the implementation
    header): a global index, a local index and the enclosing ND-range. -/
structure nd_item where
  GlobalIndex : List Int
  LocalIndex : List Int
  NDRange : NDRangeImpl
deriving DecidableEq

/-- Embeds `nd_item::get_global_id()`. -/
def nd_item.get_global_id (it : nd_item) : List Int := it.GlobalIndex

/-- Embeds `nd_item::get_local_id()`. -/
def nd_item.get_local_id (it : nd_item) : List Int := it.LocalIndex

/-- Embeds `nd_item::get_local_range()`. -/
def nd_item.get_local_range (it : nd_item) : List Int := it.NDRange.LocalRange

/-- Embeds `nd_item::get_global_range()`. -/
def nd_item.get_global_range (it : nd_item) : List Int := it.NDRange.GlobalRange

/-- Embeds `nd_item::get_offset()`. -/
def nd_item.get_offset (it : nd_item) : List Int := it.NDRange.Offset

/-- Embeds `nd_item::get_group_id()`: `get_global_id()/get_local_range()`, where `/`
    on coordinates is the elementwise upper-rounding division `operator/`. -/
def nd_item.get_group_id (it : nd_item) : List Int :=
  rangeDiv it.NDRange.dims it.GlobalIndex it.NDRange.LocalRange

/-- The store of element allocations: buffer storage is embedded as an
    explicit list of allocations (each a list of elements), indexed by
    position. -/
structure Store where
  allocs : List (List Int)
deriving DecidableEq

/-- Embeds `BufferImpl<T, dims>`: the handle part.  `alloc` is the allocation its
    `Access` view points into; `ReadOnly` is the `bool ReadOnly` member, with
    `none` standing for a member the constructor left uninitialized
    (indeterminate in C++). -/
structure BufferImpl where
  alloc : Nat
  ReadOnly : Option Bool
deriving DecidableEq

/-- The buffer's current view of its data (`Access` dereferenced in the given
    store). -/
def BufferImpl.view (st : Store) (b : BufferImpl) : List Int :=
  st.allocs.getD b.alloc []

/-- Embeds `BufferImpl(RangeImpl const &r)`: owned storage; `Allocation(r)`
    value-initializes `product(r)` elements, `Access(Allocation)`,
    `ReadOnly(false)`. -/
def BufferImpl.ofRange (st : Store) (r : List Int) : Store × BufferImpl :=
  (Store.mk (st.allocs ++ [List.replicate ((r.map Int.toNat).prod) 0]),
   BufferImpl.mk st.allocs.length (some false))

/-- Embeds `BufferImpl(T *host_data, RangeImpl r)`: wraps caller storage (here: an
    existing allocation index) without allocation; `ReadOnly(false)`. -/
def BufferImpl.ofHostData (a : Nat) : BufferImpl :=
  BufferImpl.mk a (some false)

/-- Embeds `BufferImpl(const T *host_data, RangeImpl r)`: wraps caller storage
    without allocation; `ReadOnly(true)`. -/
def BufferImpl.ofConstHostData (a : Nat) : BufferImpl :=
  BufferImpl.mk a (some true)

/-- Embeds `BufferImpl(const T *start_iterator, const T *end_iterator)`: allocates
    `distance(start, end)` elements and assigns them from the iterator range.
    Its initializer list sets `Allocation` and `Access` but never `ReadOnly`,
    so the member is left uninitialized (`none`). -/
def BufferImpl.ofIterators (st : Store) (data : List Int) : Store × BufferImpl :=
  (Store.mk (st.allocs ++ [data]), BufferImpl.mk st.allocs.length none)

/-- Embeds `BufferImpl(const BufferImpl &b)`: a new allocation initialized from the
    source's current view (`Allocation(b.Access)`), with `Access` pointing at
    the new allocation and `ReadOnly(false)`. -/
def BufferImpl.copy (st : Store) (b : BufferImpl) : Store × BufferImpl :=
  (Store.mk (st.allocs ++ [BufferImpl.view st b]),
   BufferImpl.mk st.allocs.length (some false))

/-- Embeds `AccessorImpl<T, dims, mode, target>`: a `multi_array_ref` wrapper bound
    to the buffer's storage; the mode and target template arguments are
    carried but (per the source comment) "The access::mode is not used yet". -/
structure AccessorImpl where
  alloc : Nat
  mode : Mode
  target : Target
deriving DecidableEq

/-- Embeds `AccessorImpl(BufferImpl &targetBuffer)`: binds `Array` to the buffer's
    `Access`. -/
def AccessorImpl.ofBuffer (b : BufferImpl) (m : Mode) (t : Target) : AccessorImpl :=
  AccessorImpl.mk b.alloc m t

/-- Embeds `BufferImpl::get_access<mode, target>()`: returns `{ *this }`
    unconditionally; a fail-fast contract-violation path would be `none`, and
    the source has no such path (it never consults `ReadOnly` or `mode`). -/
def BufferImpl.get_access (b : BufferImpl) (m : Mode) (t : Target) :
    Option AccessorImpl :=
  some (AccessorImpl.ofBuffer b m t)

/-- Writing an element through `AccessorImpl::operator[]` (the returned
    reference used as an l-value): updates position `i` of the accessor's
    allocation. -/
def accessorWrite (st : Store) (a : AccessorImpl) (i : Nat) (v : Int) : Store :=
  Store.mk (st.allocs.set a.alloc ((st.allocs.getD a.alloc []).set i v))

/-- Reading an element through `AccessorImpl::operator[]`. -/
def accessorRead (st : Store) (a : AccessorImpl) (i : Nat) : Int :=
  (st.allocs.getD a.alloc []).getD i 0

/-- One `for` loop level of `ParallelForIterate`: for each `i` in the index
    list, set `index[d] = i` and run the next-lower level (`step`), threading
    the mutable index vector and collecting every argument passed to the
    kernel functor, in call order. -/
def pfLoop (d : Nat) (step : List Int → List (List Int) × List Int) :
    List Nat → List Int → List (List Int) × List Int
  | [], idx => ([], idx)
  | i :: is, idx =>
    let p := step (idx.set d (i : Int))
    let q := pfLoop d step is p.2
    (p.1 ++ q.1, q.2)

/-- Embeds `ParallelForIterate<level, Range, ParallelForFunctor, Id>`: the recursive
    multi-dimensional iterator.  At `level + 1` it loops
    `_sycl_index = 0 .. r[Range::dimensionality - level - 1] - 1` (no
    iterations when that extent is not positive), setting
    `index[dimensionality - level - 1]` and recursing; the `level = 0`
    specialization calls `f(index)`.  The first component collects the
    successive arguments of `f`; the second is the final state of the shared
    index vector. -/
def ParallelForIterate (dims : Nat) (r : List Int) :
    Nat → List Int → List (List Int) × List Int
  | 0, idx => ([idx], idx)
  | level + 1, idx =>
    pfLoop (dims - (level + 1)) (ParallelForIterate dims r level)
      (List.range ((r.getD (dims - (level + 1)) 0).toNat)) idx

/-- The enumeration order the spec describes for `for_each` (section 4.3):
    every index in `[0, extent)` per dimension, dimension 0 outermost,
    ascending within each dimension.  This is the spec-side definition a
    refinement claim compares the source enumerator against. -/
def specEnum : List Int → List (List Int)
  | [] => [[]]
  | e :: es =>
    (List.range e.toNat).flatMap
      (fun i => (specEnum es).map (fun t => ((i : Int) :: t)))

/-- Modelled from the spec: the hierarchical dispatch engine (the
    `parallel_for(nd_range, f)` implementation `ParallelForImpl`, which is in
    the repository's implementation header but not under `src/`).  Per spec
    sections 3 and 4.4 it produces one work-item for every group id in
    `[0, group_count)` and every local id in `[0, local)`, with
    `global_index = group_id * local_extent + local_index + offset`. -/
def engineNDItems (nd : NDRangeImpl) : List nd_item :=
  (specEnum nd.get_group_range).flatMap
    (fun gid =>
      (specEnum nd.LocalRange).map
        (fun lid =>
          nd_item.mk
            (rangeAdd nd.dims (rangeAdd nd.dims (rangeMul nd.dims gid nd.LocalRange) lid)
              nd.Offset)
            lid nd))

/-- Helper: indexing the result of mapping a function over `List.range`. -/
theorem getD_map_range (dims i : Nat) (f : Nat → Int) (hi : i < dims) :
    ((List.range dims).map f).getD i 0 = f i := by
  rw [List.getD_eq_getElem?_getD, List.getElem?_map, List.getElem?_range hi]
  rfl

/-- Helper: `getD` at the position of the appended element. -/
theorem getD_concat_length {α : Type} (l : List α) (x d : α) :
    (l ++ [x]).getD l.length d = x := by
  rw [List.getD_eq_getElem?_getD, List.getElem?_concat_length]
  rfl

/-- Helper: `getD` after `set` at a different position. -/
theorem getD_set_ne {α : Type} (l : List α) (m n : Nat) (x d : α) (h : m ≠ n) :
    (l.set m x).getD n d = l.getD n d := by
  rw [List.getD_eq_getElem?_getD, List.getElem?_set_ne h,
    ← List.getD_eq_getElem?_getD]

/-- Helper: `getD` after `set` at the same, in-bounds position. -/
theorem getD_set_self {α : Type} (l : List α) (m : Nat) (x d : α)
    (h : m < l.length) :
    (l.set m x).getD m d = x := by
  rw [List.getD_eq_getElem?_getD, List.getElem?_set_self h]
  rfl

/-- Helper: `getD` of `replicate` is the replicated element or the default. -/
theorem getD_replicate_zero (n i : Nat) :
    (List.replicate n (0 : Int)).getD i 0 = 0 := by
  induction n generalizing i with
  | zero => cases i <;> rfl
  | succ n ih =>
    cases i with
    | zero => rfl
    | succ i => simpa [List.replicate_succ] using ih i

/-- Helper: truncating division `(a + b - 1) / b` computes the rational
    ceiling of `a / b` for positive `a` and `b`. -/
theorem ceil_div_char (a b : ℤ) (ha : 0 < a) (hb : 0 < b) :
    ⌈(a : ℚ) / (b : ℚ)⌉ = (a + b - 1).tdiv b := by
  have hab : (0 : ℤ) ≤ a + b - 1 := by omega
  rw [Int.tdiv_eq_ediv hab (le_of_lt hb)]
  have hmod := Int.ediv_add_emod (a + b - 1) b
  have h0 : 0 ≤ (a + b - 1) % b := Int.emod_nonneg _ (by omega)
  have h1 : (a + b - 1) % b < b := Int.emod_lt_of_pos _ hb
  have hbq : (0 : ℚ) < (b : ℚ) := by exact_mod_cast hb
  rw [Int.ceil_eq_iff]
  constructor
  · rw [show ((((a + b - 1) / b : ℤ) : ℚ) - 1) = (((a + b - 1) / b - 1 : ℤ) : ℚ) by
      push_cast
      ring]
    rw [lt_div_iff₀ hbq]
    have hz : ((a + b - 1) / b - 1) * b < a := by
      have e1 : ((a + b - 1) / b - 1) * b = b * ((a + b - 1) / b) - b := by ring
      rw [e1]
      omega
    exact_mod_cast hz
  · rw [div_le_iff₀ hbq]
    have hz : a ≤ ((a + b - 1) / b) * b := by
      have e1 : ((a + b - 1) / b) * b = b * ((a + b - 1) / b) := by ring
      rw [e1]
      omega
    exact_mod_cast hz

/-- C5: for every pair of same-rank coordinates `a`, `b`, the elementwise
    ceiling-divide `operator/` returns a coordinate whose component `i` is
    `(a[i] + b[i] - 1) / b[i]` under (truncating) integer division, and for
    positive `a[i]`, `b[i]` this equals the mathematical ceiling of
    `a[i] / b[i]`. -/
theorem claim_C5_ceiling_divide (dims : Nat) (a b : List Int) (i : Nat)
    (ha : a.length = dims) (hb : b.length = dims) (hi : i < dims) :
    (rangeDiv dims a b).getD i 0 = (a.getD i 0 + b.getD i 0 - 1).tdiv (b.getD i 0)
    ∧ (0 < a.getD i 0 → 0 < b.getD i 0 →
        ((rangeDiv dims a b).getD i 0 : ℤ)
          = ⌈((a.getD i 0 : ℤ) : ℚ) / ((b.getD i 0 : ℤ) : ℚ)⌉) := by
  have hcomp : (rangeDiv dims a b).getD i 0
      = (a.getD i 0 + b.getD i 0 - 1).tdiv (b.getD i 0) := by
    unfold rangeDiv
    exact getD_map_range dims i _ hi
  refine ⟨hcomp, fun hpa hpb => ?_⟩
  rw [hcomp, ceil_div_char _ _ hpa hpb]

/-- Witness for C5 at `dims = 1`, `a = [5]`, `b = [2]`:
    `ceil(5/2) = (5 + 2 - 1) / 2 = 3`. -/
theorem claim_C5_witness :
    (rangeDiv 1 [5] [2]).getD 0 0
        = ((([5] : List Int).getD 0 0 + ([2] : List Int).getD 0 0 - 1)).tdiv
            (([2] : List Int).getD 0 0)
    ∧ ((rangeDiv 1 [5] [2]).getD 0 0 : ℤ)
        = ⌈((([5] : List Int).getD 0 0 : ℤ) : ℚ) / ((([2] : List Int).getD 0 0 : ℤ) : ℚ)⌉
    ∧ (rangeDiv 1 [5] [2]).getD 0 0 = 3 := by
  have h := claim_C5_ceiling_divide 1 [5] [2] 0 (by decide) (by decide) (by decide)
  exact ⟨h.1, h.2 (by decide) (by decide), by decide⟩

/-- C6: for every ND-range built from a global extent, a local extent and an
    offset of equal rank, `get_group_range()` returns the elementwise ceiling
    division of global by local; in particular global `{4,4}` with local
    `{2,2}` yields group count `{2,2}`. -/
theorem claim_C6_group_count (dims : Nat) (g l o : List Int)
    (hg : g.length = dims) (hl : l.length = dims) (ho : o.length = dims) :
    (NDRangeImpl.mk dims g l o).get_group_range = rangeDiv dims g l
    ∧ (NDRangeImpl.mk 2 [4, 4] [2, 2] [0, 0]).get_group_range = [2, 2] :=
  ⟨rfl, by decide⟩

/-- Witness for C6 at the concrete scenario of the spec. -/
theorem claim_C6_witness :
    (NDRangeImpl.mk 2 [4, 4] [2, 2] [0, 0]).get_group_range = rangeDiv 2 [4, 4] [2, 2]
    ∧ (NDRangeImpl.mk 2 [4, 4] [2, 2] [0, 0]).get_group_range = [2, 2] :=
  claim_C6_group_count 2 [4, 4] [2, 2] [0, 0] (by decide) (by decide) (by decide)

/-- C7 counterexample: the constructors inherited from `std::vector` are
    public, and the count constructor `RangeImpl<2> r(5)` produces a value of
    length 5, not 2 — the claim that every publicly constructed value has
    length exactly `D` is false. -/
theorem claim_C7_counterexample :
    (rangeFromCount 2 5).length ≠ 2 ∧ (rangeFromCount 2 5).length = 5 := by
  decide

/-- C7 (amended): values built through the default, copy and (succeeding)
    initializer-list constructors have length exactly `D`, and the
    default-constructed value is all-zero; the constructors inherited from
    `std::vector` can produce other lengths. -/
theorem claim_C7_amended (dims : Nat) (l r v : List Int)
    (hinit : rangeInitList dims l = some v) :
    (rangeDefault dims).length = dims
    ∧ (∀ i, (rangeDefault dims).getD i 0 = 0)
    ∧ v.length = dims
    ∧ (rangeCopy r).length = r.length := by
  refine ⟨List.length_replicate dims 0, fun i => getD_replicate_zero dims i, ?_, rfl⟩
  unfold rangeInitList at hinit
  by_cases h : l.length = dims
  · rw [if_pos h] at hinit
    cases hinit
    exact h
  · rw [if_neg h] at hinit
    cases hinit

/-- Witness for C7 (amended) at `dims = 2`, initializer list `[5, 6]`. -/
theorem claim_C7_witness :
    (rangeDefault 2).length = 2
    ∧ (rangeDefault 2).getD 0 0 = 0
    ∧ ([5, 6] : List Int).length = 2
    ∧ (rangeCopy [7]).length = ([7] : List Int).length := by
  have h := claim_C7_amended 2 [5, 6] [7] [5, 6] (by decide)
  exact ⟨h.1, h.2.1 0, h.2.2.1, h.2.2.2⟩

/-- C10: `item::get(dimension)` converts the signed global coordinate to the
    unsigned `size_t`: the result is the representative of the component
    modulo `2 ^ w` in `[0, 2 ^ w)`, so a negative component is not returned
    unchanged, while `get_global_id()` returns the signed components as they
    are. -/
theorem claim_C10_item_get (w : Nat) (it : item) (dim : Nat) :
    ((it.get w dim : Int) % (2 : Int) ^ w
        = (it.GlobalIndex.getD dim 0) % (2 : Int) ^ w)
    ∧ it.get w dim < 2 ^ w
    ∧ (it.GlobalIndex.getD dim 0 < 0 → (it.get w dim : Int) ≠ it.GlobalIndex.getD dim 0)
    ∧ it.get_global_id = it.GlobalIndex := by
  have hpow : (0 : Int) < (2 : Int) ^ w := by positivity
  have h0 : 0 ≤ (it.GlobalIndex.getD dim 0) % (2 : Int) ^ w :=
    Int.emod_nonneg _ (by omega)
  have h1 : (it.GlobalIndex.getD dim 0) % (2 : Int) ^ w < (2 : Int) ^ w :=
    Int.emod_lt_of_pos _ hpow
  have hval : (it.get w dim : Int) = (it.GlobalIndex.getD dim 0) % (2 : Int) ^ w := by
    unfold item.get
    exact Int.toNat_of_nonneg h0
  refine ⟨?_, ?_, ?_, rfl⟩
  · rw [hval, Int.emod_emod_of_dvd _ dvd_rfl]
  · have : ((2 : Int) ^ w) = ((2 ^ w : Nat) : Int) := by push_cast; ring
    rw [this] at hval h1
    have := hval ▸ h1
    exact_mod_cast this
  · intro hneg
    rw [hval]
    omega

/-- Witness for C10: a 1-D item with negative global coordinate `-3` under a
    16-value word (`w = 4`): `get` returns 13 while `get_global_id` keeps
    `-3`. -/
theorem claim_C10_witness :
    ((item.mk [4] [-3] [0]).get 4 0 : Int) % (2 : Int) ^ 4
        = (([-3] : List Int).getD 0 0) % (2 : Int) ^ 4
    ∧ (item.mk [4] [-3] [0]).get 4 0 < 2 ^ 4
    ∧ (((item.mk [4] [-3] [0]).get 4 0 : Int) ≠ ([-3] : List Int).getD 0 0)
    ∧ (item.mk [4] [-3] [0]).get_global_id = [-3]
    ∧ (item.mk [4] [-3] [0]).get 4 0 = 13 := by
  have h := claim_C10_item_get 4 (item.mk [4] [-3] [0]) 0
  exact ⟨h.1, h.2.1, h.2.2.1 (by decide), h.2.2.2, by decide⟩

/-- C1 counterexample: the buffer copy constructor does not produce a handle
    sharing the original's storage.  Starting from an empty store, build a
    3-element buffer, copy-construct a second buffer from it, and write 7 at
    index 1 through an accessor of the original: an accessor of the copy
    still reads 0 there, not 7, so the handles do not alias. -/
theorem claim_C1_counterexample :
    (let p1 := BufferImpl.ofIterators (Store.mk []) [0, 0, 0]
     let p2 := BufferImpl.copy p1.1 p1.2
     let a1 := AccessorImpl.ofBuffer p1.2 Mode.read_write Target.global_buffer
     let a2 := AccessorImpl.ofBuffer p2.2 Mode.read Target.global_buffer
     let st := accessorWrite p2.1 a1 1 7
     accessorRead st a1 1 = 7
     ∧ accessorRead st a2 1 = 0
     ∧ ¬ accessorRead st a2 1 = accessorRead st a1 1) := by
  decide

/-- C1 (amended): copy-constructing a buffer makes a deep snapshot — a new
    allocation initialized from the source's current view — so after the
    copy, a write through an accessor of the original handle is not
    observable through an accessor of the copy: the copy still reads the
    source's value at copy time. -/
theorem claim_C1_amended (st : Store) (b : BufferImpl) (i : Nat) (v : Int)
    (m m' : Mode) (t t' : Target) (hb : b.alloc < st.allocs.length) :
    accessorRead
        (accessorWrite (BufferImpl.copy st b).1 (AccessorImpl.ofBuffer b m t) i v)
        (AccessorImpl.ofBuffer (BufferImpl.copy st b).2 m' t') i
      = accessorRead st (AccessorImpl.ofBuffer b m t) i := by
  unfold accessorRead accessorWrite BufferImpl.copy AccessorImpl.ofBuffer BufferImpl.view
  simp only
  rw [getD_set_ne _ _ _ _ _ (Nat.ne_of_lt hb), getD_concat_length]

/-- Witness for C1 (amended): a 2-element buffer at allocation 0; after
    writing 9 at index 0 through the original, the copy still reads 1. -/
theorem claim_C1_witness :
    accessorRead
        (accessorWrite (BufferImpl.copy (Store.mk [[1, 2]]) (BufferImpl.mk 0 (some false))).1
          (AccessorImpl.ofBuffer (BufferImpl.mk 0 (some false)) Mode.read_write
            Target.global_buffer) 0 9)
        (AccessorImpl.ofBuffer (BufferImpl.copy (Store.mk [[1, 2]]) (BufferImpl.mk 0 (some false))).2
          Mode.read Target.global_buffer) 0
      = accessorRead (Store.mk [[1, 2]])
          (AccessorImpl.ofBuffer (BufferImpl.mk 0 (some false)) Mode.read_write
            Target.global_buffer) 0 :=
  claim_C1_amended (Store.mk [[1, 2]]) (BufferImpl.mk 0 (some false)) 0 9
    Mode.read_write Mode.read Target.global_buffer Target.global_buffer (by decide)

/-- C4 counterexample: requesting a write-mode accessor on a read-only buffer
    is not rejected.  `get_access` on a read-only borrowed buffer returns an
    accessor for mode `write` (no fail-fast path is taken), and writing
    through that accessor succeeds and is observable. -/
theorem claim_C4_counterexample :
    (let st := Store.mk [[1, 2, 3]]
     let b := BufferImpl.ofConstHostData 0
     let a := AccessorImpl.mk 0 Mode.write Target.global_buffer
     b.ReadOnly = some true
     ∧ Mode.includesWrite Mode.write = true
     ∧ BufferImpl.get_access b Mode.write Target.global_buffer = some a
     ∧ ¬ BufferImpl.get_access b Mode.write Target.global_buffer = none
     ∧ accessorRead (accessorWrite st a 0 9) a 0 = 9) := by
  decide

/-- C4 (amended): `get_access` returns an accessor for every mode on every
    buffer, regardless of the `ReadOnly` flag — the mode is recorded but not
    enforced — and a read-mode accessor on a read-only borrowed buffer
    observes exactly the wrapped bytes. -/
theorem claim_C4_amended (st : Store) (b : BufferImpl) (m : Mode) (t : Target)
    (a : Nat) (i : Nat) :
    (BufferImpl.get_access b m t).isSome = true
    ∧ accessorRead st
        (AccessorImpl.ofBuffer (BufferImpl.ofConstHostData a) Mode.read t) i
      = (st.allocs.getD a []).getD i 0 :=
  ⟨rfl, rfl⟩

/-- C8: evaluation of the iterator-pair constructor.  The storage does hold
    exactly `distance(first, last)` elements equal to the source elements in
    order, but the `ReadOnly` member is left uninitialized by this
    constructor (modelled as `none`), not set to `false` as the claim
    states. -/
theorem claim_C8_bug :
    (let p := BufferImpl.ofIterators (Store.mk []) [1, 2, 3]
     p.1.allocs.getD p.2.alloc [] = [1, 2, 3]
     ∧ (p.1.allocs.getD p.2.alloc []).length = 3
     ∧ p.2.ReadOnly = none
     ∧ ¬ p.2.ReadOnly = some false) := by
  decide

/-- C9: copy-constructing any buffer — also one whose `ReadOnly` flag is
    `true` — yields a buffer whose `ReadOnly` flag is `false`; a write-mode
    accessor on the copy is granted and its writes are effective. -/
theorem claim_C9_copy_not_readonly (st : Store) (b : BufferImpl) (i : Nat)
    (v : Int) (t : Target) (hb : b.alloc < st.allocs.length)
    (hi : i < (st.allocs.getD b.alloc []).length) :
    (BufferImpl.copy st b).2.ReadOnly = some false
    ∧ (BufferImpl.get_access (BufferImpl.copy st b).2 Mode.write t).isSome = true
    ∧ accessorRead
        (accessorWrite (BufferImpl.copy st b).1
          (AccessorImpl.ofBuffer (BufferImpl.copy st b).2 Mode.write t) i v)
        (AccessorImpl.ofBuffer (BufferImpl.copy st b).2 Mode.write t) i = v := by
  refine ⟨rfl, rfl, ?_⟩
  unfold accessorRead accessorWrite BufferImpl.copy AccessorImpl.ofBuffer BufferImpl.view
  simp only
  have hlen : st.allocs.length < (st.allocs ++ [st.allocs.getD b.alloc []]).length := by
    rw [List.length_append]
    simp
  rw [getD_set_self _ _ _ _ hlen]
  rw [getD_concat_length]
  exact getD_set_self _ _ _ _ hi

/-- Witness for C9: copying a read-only buffer (`ReadOnly = some true`) over
    storage `[1, 2]` yields a writable copy through which 5 can be written. -/
theorem claim_C9_witness :
    (BufferImpl.copy (Store.mk [[1, 2]]) (BufferImpl.mk 0 (some true))).2.ReadOnly = some false
    ∧ (BufferImpl.get_access
        (BufferImpl.copy (Store.mk [[1, 2]]) (BufferImpl.mk 0 (some true))).2
        Mode.write Target.global_buffer).isSome = true
    ∧ accessorRead
        (accessorWrite (BufferImpl.copy (Store.mk [[1, 2]]) (BufferImpl.mk 0 (some true))).1
          (AccessorImpl.ofBuffer
            (BufferImpl.copy (Store.mk [[1, 2]]) (BufferImpl.mk 0 (some true))).2
            Mode.write Target.global_buffer) 0 5)
        (AccessorImpl.ofBuffer
          (BufferImpl.copy (Store.mk [[1, 2]]) (BufferImpl.mk 0 (some true))).2
          Mode.write Target.global_buffer) 0 = 5 :=
  claim_C9_copy_not_readonly (Store.mk [[1, 2]]) (BufferImpl.mk 0 (some true)) 0 5
    Target.global_buffer (by decide) (by decide)

/-- C3: evaluation at a failing input.  In the 1-D ND-range with global
    `[4]`, local `[2]`, offset `[0]`, the engine produces the work-item with
    group id `[0]` and local id `[1]`, whose global id is `[1]`; but
    `get_group_id()` recomputes the group id as
    `get_global_id()/get_local_range()` with the upper-rounding division, so
    `get_group_id() * get_local_range() + get_local_id() + get_offset()`
    evaluates to `[3]`, not the global id `[1]` the claim requires. -/
theorem claim_C3_bug :
    (let nd := NDRangeImpl.mk 1 [4] [2] [0]
     let it := nd_item.mk [1] [1] nd
     it ∈ engineNDItems nd
     ∧ it.get_global_id = [1]
     ∧ it.get_group_id = [1]
     ∧ rangeAdd 1 (rangeAdd 1 (rangeMul 1 it.get_group_id it.get_local_range)
         it.get_local_id) it.get_offset = [3]
     ∧ ¬ it.get_global_id
         = rangeAdd 1 (rangeAdd 1 (rangeMul 1 it.get_group_id it.get_local_range)
             it.get_local_id) it.get_offset) := by
  decide

/-- Helper: `take d` is unaffected by `set` at position `d`. -/
theorem take_set_eq {α : Type} (l : List α) (d : Nat) (x : α) :
    (l.set d x).take d = l.take d := by
  induction l generalizing d with
  | nil => simp
  | cons a as ih =>
    cases d with
    | zero => simp
    | succ d' =>
      rw [List.set_cons_succ, List.take_succ_cons, List.take_succ_cons, ih]

/-- Helper: `take (d + 1)` after an in-bounds `set` at position `d` is the
    old prefix with the new element appended. -/
theorem take_succ_set_eq {α : Type} (l : List α) (d : Nat) (x : α) :
    d < l.length → (l.set d x).take (d + 1) = l.take d ++ [x] := by
  induction l generalizing d with
  | nil =>
    intro h
    simp at h
  | cons a as ih =>
    intro h
    cases d with
    | zero => rfl
    | succ d' =>
      rw [List.set_cons_succ, List.take_succ_cons, List.take_succ_cons,
        List.cons_append]
      have h' : d' < as.length := by
        simp only [List.length_cons] at h
        omega
      rw [ih d' h']

/-- Helper: the spec-order enumeration of a box has `product(extent)`
    elements (with negative extents clamped to zero iterations). -/
theorem length_specEnum (r : List Int) :
    (specEnum r).length = (r.map Int.toNat).prod := by
  induction r with
  | nil => rfl
  | cons e es ih =>
    rw [show specEnum (e :: es) = (List.range e.toNat).flatMap
        (fun i => (specEnum es).map (fun t => ((i : Int) :: t))) from rfl]
    rw [List.length_flatMap]
    have hmap : List.map
        (List.length ∘ fun i : Nat => (specEnum es).map (fun t => ((i : Int) :: t)))
        (List.range e.toNat) = List.replicate e.toNat (specEnum es).length := by
      have hfun : (List.length ∘ fun i : Nat => (specEnum es).map (fun t => ((i : Int) :: t)))
          = fun _ : Nat => (specEnum es).length := by
        funext i
        simp
      rw [hfun, List.map_const', List.length_range]
    rw [hmap, List.sum_replicate, smul_eq_mul, List.map_cons, List.prod_cons, ih]

/-- Helper: the spec-order enumeration has no duplicate index. -/
theorem nodup_specEnum (r : List Int) : (specEnum r).Nodup := by
  induction r with
  | nil => simp [specEnum]
  | cons e es ih =>
    rw [show specEnum (e :: es) = (List.range e.toNat).flatMap
        (fun i => (specEnum es).map (fun t => ((i : Int) :: t))) from rfl]
    rw [List.nodup_flatMap]
    refine ⟨fun i _ => ?_, ?_⟩
    · refine ih.map ?_
      intro t1 t2 ht
      injection ht
    · refine (List.pairwise_lt_range e.toNat).imp ?_
      intro i j hij x hxi hxj
      rw [List.mem_map] at hxi hxj
      obtain ⟨t1, _, rfl⟩ := hxi
      obtain ⟨t2, _, he⟩ := hxj
      have hheads : (j : Int) = (i : Int) := by
        injection he
      have : j = i := by exact_mod_cast hheads
      omega

/-- Helper: membership in the spec-order enumeration is exactly componentwise
    membership in the box `[0, extent[i])`. -/
theorem mem_specEnum (r v : List Int) :
    v ∈ specEnum r ↔ List.Forall₂ (fun c e => 0 ≤ c ∧ c < e) v r := by
  induction r generalizing v with
  | nil =>
    rw [show specEnum [] = [[]] from rfl, List.mem_singleton,
      List.forall₂_nil_right_iff]
  | cons e es ih =>
    rw [show specEnum (e :: es) = (List.range e.toNat).flatMap
        (fun i => (specEnum es).map (fun t => ((i : Int) :: t))) from rfl]
    rw [List.mem_flatMap]
    constructor
    · rintro ⟨i, hi, hv⟩
      rw [List.mem_map] at hv
      obtain ⟨t, ht, rfl⟩ := hv
      rw [List.mem_range] at hi
      exact List.Forall₂.cons ⟨Int.natCast_nonneg i, Int.lt_toNat.mp hi⟩ ((ih t).mp ht)
    · intro h
      rw [List.forall₂_cons_right_iff] at h
      obtain ⟨c, v', hce, hf, rfl⟩ := h
      refine ⟨c.toNat, ?_, ?_⟩
      · rw [List.mem_range, Int.lt_toNat, Int.toNat_of_nonneg hce.1]
        exact hce.2
      · rw [List.mem_map]
        refine ⟨v', (ih v').mpr hf, ?_⟩
        simp [Int.toNat_of_nonneg hce.1]

/-- Helper: behaviour of one `pfLoop` level, given the behaviour of the level
    below it: it enumerates its dimension ascending, collecting the lower
    level's calls, and touches the index vector only at positions `≥ d`. -/
theorem pfLoop_spec (dims d : Nat) (step : List Int → List (List Int) × List Int)
    (T : List (List Int)) (hd : d < dims)
    (hstep : ∀ idx : List Int, idx.length = dims →
      (step idx).1 = T.map (fun t => idx.take (d + 1) ++ t)
      ∧ (step idx).2.length = dims
      ∧ (step idx).2.take (d + 1) = idx.take (d + 1)) :
    ∀ (is : List Nat) (idx : List Int), idx.length = dims →
      (pfLoop d step is idx).1
        = is.flatMap (fun i => T.map (fun t => idx.take d ++ (i : Int) :: t))
      ∧ (pfLoop d step is idx).2.length = dims
      ∧ (pfLoop d step is idx).2.take d = idx.take d := by
  intro is
  induction is with
  | nil =>
    intro idx hidx
    exact ⟨rfl, hidx, rfl⟩
  | cons i is ih =>
    intro idx hidx
    have hlen1 : (idx.set d (i : Int)).length = dims := by
      rw [List.length_set]
      exact hidx
    obtain ⟨hs1, hs2, hs3⟩ := hstep (idx.set d (i : Int)) hlen1
    obtain ⟨hq1, hq2, hq3⟩ := ih (step (idx.set d (i : Int))).2 hs2
    have hmin : d ⊓ (d + 1) = d := by omega
    have hpre : (step (idx.set d (i : Int))).2.take d = idx.take d := by
      have h1 := congrArg (List.take d) hs3
      rw [List.take_take, List.take_take, hmin] at h1
      rw [h1, take_set_eq]
    refine ⟨?_, ?_, ?_⟩
    · show (step (idx.set d (i : Int))).1
          ++ (pfLoop d step is (step (idx.set d (i : Int))).2).1 = _
      rw [hs1, hq1, hpre, take_succ_set_eq idx d (i : Int) (by omega),
        List.flatMap_cons]
      congr 1
      simp only [List.append_assoc, List.singleton_append]
    · show (pfLoop d step is (step (idx.set d (i : Int))).2).2.length = dims
      exact hq2
    · show (pfLoop d step is (step (idx.set d (i : Int))).2).2.take d = idx.take d
      rw [hq3, hpre]

/-- Helper: the recursive iterator at a given level, started on any index
    vector of the right length, passes the kernel functor exactly the
    spec-order enumeration of the remaining (inner) dimensions, each call
    prefixed by the already-fixed outer coordinates, and leaves the outer
    coordinates untouched. -/
theorem ParallelForIterate_spec (dims : Nat) (r : List Int) (hr : r.length = dims) :
    ∀ (level : Nat), level ≤ dims → ∀ idx : List Int, idx.length = dims →
      (ParallelForIterate dims r level idx).1
        = (specEnum (r.drop (dims - level))).map
            (fun t => idx.take (dims - level) ++ t)
      ∧ (ParallelForIterate dims r level idx).2.length = dims
      ∧ (ParallelForIterate dims r level idx).2.take (dims - level)
          = idx.take (dims - level) := by
  intro level
  induction level with
  | zero =>
    intro _ idx hidx
    refine ⟨?_, hidx, rfl⟩
    have hdrop : r.drop (dims - 0) = [] := by
      rw [Nat.sub_zero, ← hr, List.drop_length]
    have htake : idx.take (dims - 0) = idx := by
      rw [Nat.sub_zero, ← hidx, List.take_length]
    show [idx] = _
    rw [hdrop, show specEnum [] = [[]] from rfl]
    simp only [List.map_cons, List.map_nil, List.append_nil, htake]
  | succ level ih =>
    intro hlev idx hidx
    have hd : dims - (level + 1) < dims := by omega
    have hsucc : dims - level = (dims - (level + 1)) + 1 := by omega
    have hstep : ∀ idx' : List Int, idx'.length = dims →
        (ParallelForIterate dims r level idx').1
          = (specEnum (r.drop ((dims - (level + 1)) + 1))).map
              (fun t => idx'.take ((dims - (level + 1)) + 1) ++ t)
        ∧ (ParallelForIterate dims r level idx').2.length = dims
        ∧ (ParallelForIterate dims r level idx').2.take ((dims - (level + 1)) + 1)
            = idx'.take ((dims - (level + 1)) + 1) := by
      intro idx' h'
      have h0 := ih (by omega) idx' h'
      rw [hsucc] at h0
      exact h0
    obtain ⟨h1, h2, h3⟩ :=
      pfLoop_spec dims (dims - (level + 1)) (ParallelForIterate dims r level)
        (specEnum (r.drop ((dims - (level + 1)) + 1))) hd hstep
        (List.range ((r.getD (dims - (level + 1)) 0).toNat)) idx hidx
    have hdr : dims - (level + 1) < r.length := by omega
    refine ⟨?_, h2, h3⟩
    show (pfLoop (dims - (level + 1)) (ParallelForIterate dims r level)
        (List.range ((r.getD (dims - (level + 1)) 0).toNat)) idx).1 = _
    rw [h1, List.drop_eq_getElem_cons hdr,
      show r.getD (dims - (level + 1)) 0 = r[dims - (level + 1)] from by
        rw [List.getD_eq_getElem?_getD, List.getElem?_eq_getElem hdr]
        rfl,
      show specEnum (r[dims - (level + 1)] :: r.drop ((dims - (level + 1)) + 1))
          = (List.range (r[dims - (level + 1)]).toNat).flatMap
              (fun i => (specEnum (r.drop ((dims - (level + 1)) + 1))).map
                (fun t => ((i : Int) :: t))) from rfl,
      List.map_flatMap]
    refine congrArg _ (funext fun i => ?_)
    rw [List.map_map]
    rfl

/-- C2: for every rank 1–3 and every extent of that rank with non-negative
    components, the sequential flat enumerator started on the
    default-constructed (zero) index passes the kernel functor exactly the
    spec-order enumeration of the box — dimension 0 outermost, ascending
    within each dimension — hence exactly `product(extent)` invocations, each
    with a distinct index drawn from the box, and zero invocations as soon as
    one extent component is zero. -/
theorem claim_C2_flat_enumerator (dims : Nat) (r : List Int)
    (hd1 : 1 ≤ dims) (hd3 : dims ≤ 3) (hr : r.length = dims)
    (hnn : ∀ i, i < dims → 0 ≤ r.getD i 0) :
    (ParallelForIterate dims r dims (List.replicate dims 0)).1 = specEnum r
    ∧ (ParallelForIterate dims r dims (List.replicate dims 0)).1.length
        = (r.map Int.toNat).prod
    ∧ (ParallelForIterate dims r dims (List.replicate dims 0)).1.Nodup
    ∧ (∀ v : List Int,
        v ∈ (ParallelForIterate dims r dims (List.replicate dims 0)).1
          ↔ List.Forall₂ (fun c e => 0 ≤ c ∧ c < e) v r)
    ∧ (∀ j, j < dims → r.getD j 0 = 0
        → (ParallelForIterate dims r dims (List.replicate dims 0)).1 = []) := by
  have main := (ParallelForIterate_spec dims r hr dims (le_refl dims)
    (List.replicate dims 0) (List.length_replicate dims 0)).1
  rw [Nat.sub_self, List.drop_zero] at main
  have hcalls : (ParallelForIterate dims r dims (List.replicate dims 0)).1
      = specEnum r := by
    rw [main]
    simp
  refine ⟨hcalls, ?_, ?_, ?_, ?_⟩
  · rw [hcalls, length_specEnum]
  · rw [hcalls]
    exact nodup_specEnum r
  · intro v
    rw [hcalls]
    exact mem_specEnum r v
  · intro j hj hj0
    rw [hcalls, ← List.length_eq_zero, length_specEnum]
    apply List.prod_eq_zero
    rw [List.mem_map]
    have hjr : j < r.length := by omega
    refine ⟨r[j], List.getElem_mem hjr, ?_⟩
    have hz : r[j] = (0 : Int) := by
      rw [← hj0, List.getD_eq_getElem?_getD, List.getElem?_eq_getElem hjr]
      rfl
    rw [hz]
    rfl

/-- Witness for C2 at rank 2, extent `[2, 3]`: six calls, in spec order. -/
theorem claim_C2_witness :
    (ParallelForIterate 2 [2, 3] 2 (List.replicate 2 0)).1 = specEnum [2, 3]
    ∧ (ParallelForIterate 2 [2, 3] 2 (List.replicate 2 0)).1.length
        = (([2, 3] : List Int).map Int.toNat).prod
    ∧ (ParallelForIterate 2 [2, 3] 2 (List.replicate 2 0)).1.Nodup
    ∧ (([1, 2] : List Int) ∈ (ParallelForIterate 2 [2, 3] 2 (List.replicate 2 0)).1
        ↔ List.Forall₂ (fun c e => 0 ≤ c ∧ c < e) ([1, 2] : List Int) [2, 3]) := by
  have h := claim_C2_flat_enumerator 2 [2, 3] (by decide) (by decide) (by decide)
    (by decide)
  exact ⟨h.1, h.2.1, h.2.2.1, h.2.2.2.1 [1, 2]⟩

end TriSycl
